import Mathlib

/-!
Verification development for the Buddhabrot heatmap generator
(`src/buddhabrot.cpp`).

The core of the program is embedded shallowly over exact rational
arithmetic:

* `Complex` — the 2D complex-number kernel (class `Complex` in the source);
* `buddhabrotPoints` — the escape-trajectory sampler;
* `rowFromReal` / `colFromImaginary` — the coordinate mapper, with the C
  `(int)` cast modelled by truncation toward zero (`ratTrunc`);
* `accumulatePoint` / `processSample` / `GenerateHeatmap` — the per-channel
  generator loop with its bounds filter, heatmap increment and running
  maximum (`o_maxHeatmapValue`);
* `colorFromHeatmap` — the normalizer.

Sample points are taken as an explicit list (the random draws of the
source's `mt19937` stream), so every statement is about the generator at a
fixed sequence of draws.
-/

namespace Buddhabrot

/-- Complex number, mirroring class `Complex` of the source (fields `_r`,
`_i`); the double components are modelled by exact rationals. -/
structure Complex where
  r : ℚ
  i : ℚ
deriving DecidableEq, Repr

/-- Source `Complex::operator*`: `(a + bi)(c + di)`. -/
def Complex.mul (a b : Complex) : Complex :=
  ⟨a.r * b.r - a.i * b.i, a.r * b.i + a.i * b.r⟩

instance : Mul Complex := ⟨Complex.mul⟩

/-- Source `Complex::operator+`. -/
def Complex.add (a b : Complex) : Complex :=
  ⟨a.r + b.r, a.i + b.i⟩

instance : Add Complex := ⟨Complex.add⟩

/-- Source `Complex::sqmagnitude`: `_r * _r + _i * _i`. -/
def Complex.sqmagnitude (z : Complex) : ℚ :=
  z.r * z.r + z.i * z.i

/-- Loop of `buddhabrotPoints`, fuel = remaining iterations `nIterations - n`.
Returns `none` when the counter reaches `nIterations` (the source then
discards the whole trajectory), and `some` of the list of the z-values still
to be pushed when the magnitude check `z.sqmagnitude() <= 2.0` fails first. -/
def buddhabrotAux (c : Complex) : ℕ → Complex → Option (List Complex)
  | 0, _ => none
  | fuel + 1, z =>
    if z.sqmagnitude ≤ 2 then
      (buddhabrotAux c fuel (z * z + c)).map (fun rest => (z * z + c) :: rest)
    else
      some []

/-- Source `buddhabrotPoints`: iterate `z <- z*z + c` from `z = 0`, pushing
every new z, while `n < nIterations && z.sqmagnitude() <= 2.0`; if the loop
ran the full `nIterations` iterations (`n == nIterations`) the trajectory is
discarded (empty vector), otherwise it is returned. -/
def buddhabrotPoints (c : Complex) (nIterations : ℕ) : List Complex :=
  (buddhabrotAux c nIterations ⟨0, 0⟩).getD []

/-- Orbit of the quadratic map: `zIter c n` is the z-value after `n`
applications of `z <- z*z + c` starting from `z = 0`. -/
def zIter (c : Complex) : ℕ → Complex
  | 0 => ⟨0, 0⟩
  | n + 1 => zIter c n * zIter c n + c

/-- Truncation toward zero, the semantics of the C `(int)` cast applied to a
double in `rowFromReal` / `colFromImaginary`. -/
def ratTrunc (q : ℚ) : ℤ :=
  if 0 ≤ q then ⌊q⌋ else ⌈q⌉

/-- Source `rowFromReal`: `(int)((real - minR) * (imageHeight / (maxR - minR)))`. -/
def rowFromReal (real minR maxR : ℚ) (imageHeight : ℕ) : ℤ :=
  ratTrunc ((real - minR) * ((imageHeight : ℚ) / (maxR - minR)))

/-- Source `colFromImaginary`: `(int)((imag - minI) * (imageWidth / (maxI - minI)))`. -/
def colFromImaginary (imag minI maxI : ℚ) (imageWidth : ℕ) : ℤ :=
  ratTrunc ((imag - minI) * ((imageWidth : ℚ) / (maxI - minI)))

/-- Heatmap that is all zeros, as produced by `AllocHeatmap` in the source.
The grid is modelled as a total function on `ℤ × ℤ` indices; the allocated
cells are those with row in `[0, imageHeight)` and column in `[0, imageWidth)`. -/
def zeroHeatmap : ℤ → ℤ → ℕ :=
  fun _ _ => 0

/-- One increment `++o_heatmap[row][col]` of the source generator. -/
def bump (h : ℤ → ℤ → ℕ) (row col : ℤ) : ℤ → ℤ → ℕ :=
  fun x y => if x = row ∧ y = col then h x y + 1 else h x y

/-- State mutated by `GenerateHeatmap`: the channel's heatmap grid
(`o_heatmap`) and the shared running maximum (`o_maxHeatmapValue`). Counts
are `float` in the source but only ever `0` incremented one at a time, so
they are modelled by naturals. -/
@[ext]
structure GenState where
  heatmap : ℤ → ℤ → ℕ
  maxHeatmapValue : ℕ

/-- Bounds filter of the source generator (line 144):
`point.r() <= maximum.r() && point.r() >= minimum.r() &&
 point.i() <= maximum.i() && point.i() >= minimum.i()`. -/
def inRect (minimum maximum point : Complex) : Bool :=
  decide (point.r ≤ maximum.r) && decide (point.r ≥ minimum.r) &&
    decide (point.i ≤ maximum.i) && decide (point.i ≥ minimum.i)

/-- Body of the inner loop of `GenerateHeatmap`: filter the point, map it to
a (row, col) pair, increment that cell and update the running maximum when
the new cell value exceeds it. -/
def accumulatePoint (minimum maximum : Complex) (imageWidth imageHeight : ℕ)
    (st : GenState) (point : Complex) : GenState :=
  if inRect minimum maximum point then
    let row := rowFromReal point.r minimum.r maximum.r imageHeight
    let col := colFromImaginary point.i minimum.i maximum.i imageWidth
    let h := bump st.heatmap row col
    { heatmap := h
      maxHeatmapValue :=
        if st.maxHeatmapValue < h row col then h row col else st.maxHeatmapValue }
  else st

/-- Processing of one sample in `GenerateHeatmap`: fold the accumulation
over the sample's trajectory `buddhabrotPoints(sample, nIterations)`. -/
def processSample (minimum maximum : Complex) (imageWidth imageHeight nIterations : ℕ)
    (st : GenState) (sample : Complex) : GenState :=
  (buddhabrotPoints sample nIterations).foldl
    (accumulatePoint minimum maximum imageWidth imageHeight) st

/-- Source `GenerateHeatmap`, at a fixed list of random draws: fold the
per-sample processing over the samples. -/
def GenerateHeatmap (minimum maximum : Complex) (imageWidth imageHeight nIterations : ℕ)
    (samples : List Complex) (st : GenState) : GenState :=
  samples.foldl (processSample minimum maximum imageWidth imageHeight nIterations) st

/-- Source `colorFromHeatmap`:
`scale = (1.0f * maxColor) / (1.0f * maxHeatmapValue); return inputValue * scale`. -/
def colorFromHeatmap (inputValue maxHeatmapValue maxColor : ℚ) : ℚ :=
  inputValue * ((1 * maxColor) / (1 * maxHeatmapValue))

/-- Definedness-tracking refinement of `colorFromHeatmap`: the source
performs the division `maxColor / maxHeatmapValue` on IEEE doubles, where a
zero divisor yields a non-finite value (infinity, and NaN once multiplied by
a zero cell) instead of a rational; `none` records exactly that case. -/
def colorFromHeatmapChecked (inputValue maxHeatmapValue maxColor : ℚ) : Option ℚ :=
  if (1 : ℚ) * maxHeatmapValue = 0 then none
  else some (inputValue * ((1 * maxColor) / (1 * maxHeatmapValue)))

/-- Source setting `IMAGE_HEIGHT = 200`. -/
def IMAGE_HEIGHT : ℕ := 200

/-- Source setting `IMAGE_WIDTH = 200`. -/
def IMAGE_WIDTH : ℕ := 200

/-- Source setting `RED_ITERS = 200`. -/
def RED_ITERS : ℕ := 200

/-- Source setting `BLUE_ITERS = 800`. -/
def BLUE_ITERS : ℕ := 800

/-- Source setting `GREEN_ITERS = 200`. -/
def GREEN_ITERS : ℕ := 200

/-- Source `MINIMUM` corner of the viewing rectangle in `main`. -/
def MINIMUM : Complex := ⟨-2, -2⟩

/-- Source `MAXIMUM` corner of the viewing rectangle in `main`. -/
def MAXIMUM : Complex := ⟨2, 2⟩

/-- Freshly allocated all-zero heatmap paired with a carried-in value of the
shared running maximum (`main` starts it at `0`). -/
def initState (m : ℕ) : GenState :=
  { heatmap := zeroHeatmap, maxHeatmapValue := m }

/-- State of the red channel after its generation pass in `main`: fresh
all-zero heatmap, shared maximum starting at `0`. -/
def redState (samplesRed : List Complex) : GenState :=
  GenerateHeatmap MINIMUM MAXIMUM IMAGE_WIDTH IMAGE_HEIGHT RED_ITERS samplesRed
    (initState 0)

/-- State of the blue channel after its generation pass in `main` (the source
runs blue second): fresh all-zero heatmap, shared maximum carried over from
the red pass. -/
def blueState (samplesRed samplesBlue : List Complex) : GenState :=
  GenerateHeatmap MINIMUM MAXIMUM IMAGE_WIDTH IMAGE_HEIGHT BLUE_ITERS samplesBlue
    (initState (redState samplesRed).maxHeatmapValue)

/-- State of the green channel after its generation pass in `main` (run
third): fresh all-zero heatmap, shared maximum carried over from the blue
pass. -/
def greenState (samplesRed samplesBlue samplesGreen : List Complex) : GenState :=
  GenerateHeatmap MINIMUM MAXIMUM IMAGE_WIDTH IMAGE_HEIGHT GREEN_ITERS samplesGreen
    (initState (blueState samplesRed samplesBlue).maxHeatmapValue)

/-- State of the red-channel pass after only the first `n` samples. -/
def redPrefix (samplesRed : List Complex) (n : ℕ) : GenState :=
  GenerateHeatmap MINIMUM MAXIMUM IMAGE_WIDTH IMAGE_HEIGHT RED_ITERS
    (samplesRed.take n) (initState 0)

/-- State of the blue-channel pass after only the first `n` samples. -/
def bluePrefix (samplesRed samplesBlue : List Complex) (n : ℕ) : GenState :=
  GenerateHeatmap MINIMUM MAXIMUM IMAGE_WIDTH IMAGE_HEIGHT BLUE_ITERS
    (samplesBlue.take n) (initState (redState samplesRed).maxHeatmapValue)

/-- State of the green-channel pass after only the first `n` samples. -/
def greenPrefix (samplesRed samplesBlue samplesGreen : List Complex) (n : ℕ) : GenState :=
  GenerateHeatmap MINIMUM MAXIMUM IMAGE_WIDTH IMAGE_HEIGHT GREEN_ITERS
    (samplesGreen.take n) (initState (blueState samplesRed samplesBlue).maxHeatmapValue)

/-- Maximum cell value over the allocated `imageHeight × imageWidth` grid of
a heatmap. -/
def gridMax (h : ℤ → ℤ → ℕ) (imageWidth imageHeight : ℕ) : ℕ :=
  (Finset.range imageHeight ×ˢ Finset.range imageWidth).sup
    (fun p => h (p.1 : ℤ) (p.2 : ℤ))

/-- Point strictly below the viewing-rectangle maximum in both axes; exactly
the points the mapper sends to an in-range (row, col) pair. -/
def strictlyInside (maximum point : Complex) : Prop :=
  point.r < maximum.r ∧ point.i < maximum.i

/-- Sample lists whose trajectory points never hit the viewing-rectangle
maximum exactly: every trajectory point passing the source's bounds filter is
strictly below the maximum in both axes, so every heatmap increment lands in
the allocated grid (the source has undefined behaviour otherwise, see the
boundary analysis of the filter). -/
def inGridSamples (nIterations : ℕ) (samples : List Complex) : Prop :=
  ∀ c ∈ samples, ∀ p ∈ buddhabrotPoints c nIterations,
    inRect MINIMUM MAXIMUM p = true → strictlyInside MAXIMUM p

/-- Real coordinate of the center of the bucket of image row `row`: the
midpoint of the `row`-th of `imageHeight` equal sub-intervals of
`[minR, maxR]`. -/
def cellCenterReal (minR maxR : ℚ) (imageHeight row : ℕ) : ℚ :=
  minR + ((row : ℚ) + 1/2) * (maxR - minR) / imageHeight

/-- Imaginary coordinate of the center of the bucket of image column `col`. -/
def cellCenterImag (minI maxI : ℚ) (imageWidth col : ℕ) : ℚ :=
  minI + ((col : ℚ) + 1/2) * (maxI - minI) / imageWidth

/-! Definitional equations, restated as simp lemmas. -/

@[simp] theorem Complex.mul_def (a b : Complex) :
    a * b = ⟨a.r * b.r - a.i * b.i, a.r * b.i + a.i * b.r⟩ := rfl

@[simp] theorem Complex.add_def (a b : Complex) :
    a + b = ⟨a.r + b.r, a.i + b.i⟩ := rfl

theorem zIter_zero (c : Complex) : zIter c 0 = ⟨0, 0⟩ := rfl

theorem zIter_succ (c : Complex) (n : ℕ) :
    zIter c (n + 1) = zIter c n * zIter c n + c := rfl

theorem zIter_one (c : Complex) : zIter c 1 = c := by
  cases c
  simp [zIter]

theorem buddhabrotAux_zero (c z : Complex) : buddhabrotAux c 0 z = none := rfl

theorem buddhabrotAux_succ (c z : Complex) (fuel : ℕ) :
    buddhabrotAux c (fuel + 1) z =
      if z.sqmagnitude ≤ 2 then
        (buddhabrotAux c fuel (z * z + c)).map (fun rest => (z * z + c) :: rest)
      else
        some [] := rfl

/-! Characterization of the trajectory sampler in terms of the orbit `zIter`. -/

/-- When the orbit never escapes before the fuel runs out, the loop counter
reaches `nIterations` and the sampler's inner loop reports `none`. -/
theorem buddhabrotAux_none_of_bounded (c : Complex) :
    ∀ fuel m, (∀ j, j < m + fuel → (zIter c j).sqmagnitude ≤ 2) →
      buddhabrotAux c fuel (zIter c m) = none := by
  intro fuel
  induction fuel with
  | zero => intro m _; rfl
  | succ fuel ih =>
    intro m h
    rw [buddhabrotAux_succ, if_pos (h m (by omega))]
    have hstep : zIter c m * zIter c m + c = zIter c (m + 1) := rfl
    rw [hstep, ih (m + 1) (fun j hj => h j (by omega))]
    rfl

/-- Exact value of the sampler's inner loop when the orbit first escapes at
index `k`: starting from `zIter c m`, the loop pushes `zIter c (m+1) ...
zIter c k` and stops early exactly when the remaining fuel exceeds `k - m`. -/
theorem buddhabrotAux_of_firstEscape (c : Complex) (k : ℕ)
    (hesc : 2 < (zIter c k).sqmagnitude)
    (hprev : ∀ j, j < k → (zIter c j).sqmagnitude ≤ 2) :
    ∀ fuel m, m ≤ k →
      buddhabrotAux c fuel (zIter c m) =
        if k - m < fuel then some ((List.range' (m + 1) (k - m)).map (zIter c))
        else none := by
  intro fuel
  induction fuel with
  | zero =>
    intro m _
    rw [if_neg (by omega)]
    rfl
  | succ fuel ih =>
    intro m hm
    rcases eq_or_lt_of_le hm with heq | hlt
    · subst heq
      rw [buddhabrotAux_succ, if_neg (not_le.mpr hesc), if_pos (by omega)]
      simp
    · rw [buddhabrotAux_succ, if_pos (hprev m hlt)]
      have hstep : zIter c m * zIter c m + c = zIter c (m + 1) := rfl
      rw [hstep, ih (m + 1) hlt]
      by_cases hc : k - (m + 1) < fuel
      · rw [if_pos hc, if_pos (by omega)]
        have hk : k - m = (k - (m + 1)) + 1 := by omega
        rw [hk, List.range'_succ]
        simp
      · rw [if_neg hc, if_neg (by omega)]
        rfl

/-- When the orbit first escapes at `k`, the sampler returns the visited
z-values `zIter c 1 .. zIter c k` if the escape is strictly before the budget,
and discards the trajectory (returning the empty list) when `k` is at or
beyond the budget. -/
theorem buddhabrotPoints_of_firstEscape (c : Complex) (k : ℕ)
    (hesc : 2 < (zIter c k).sqmagnitude)
    (hprev : ∀ j, j < k → (zIter c j).sqmagnitude ≤ 2) (B : ℕ) :
    buddhabrotPoints c B =
      if k < B then (List.range' 1 k).map (zIter c) else [] := by
  have h0 : (⟨0, 0⟩ : Complex) = zIter c 0 := rfl
  rw [buddhabrotPoints, h0,
    buddhabrotAux_of_firstEscape c k hesc hprev B 0 (Nat.zero_le k)]
  by_cases hc : k < B
  · rw [if_pos (by omega), if_pos hc]
    rfl
  · rw [if_neg (by omega), if_neg hc]
    rfl

/-- When the orbit stays within squared magnitude `2` for the whole budget,
the sampler returns the empty list. -/
theorem buddhabrotPoints_nil_of_bounded (c : Complex) (B : ℕ)
    (h : ∀ j, j < B → (zIter c j).sqmagnitude ≤ 2) :
    buddhabrotPoints c B = [] := by
  have h0 : (⟨0, 0⟩ : Complex) = zIter c 0 := rfl
  rw [buddhabrotPoints, h0, buddhabrotAux_none_of_bounded c B 0 (by simpa using h)]
  rfl

/-- A non-empty returned trajectory means the orbit escaped strictly within
the budget, at a well-defined first escape index. -/
theorem exists_firstEscape_of_ne_nil (c : Complex) (B : ℕ)
    (h : buddhabrotPoints c B ≠ []) :
    ∃ k, k < B ∧ 2 < (zIter c k).sqmagnitude ∧
      ∀ j, j < k → (zIter c j).sqmagnitude ≤ 2 := by
  by_cases hE : ∃ j, j < B ∧ 2 < (zIter c j).sqmagnitude
  · obtain ⟨j0, hj0B, hj0⟩ := hE
    have hex : ∃ j, 2 < (zIter c j).sqmagnitude := ⟨j0, hj0⟩
    refine ⟨Nat.find hex, lt_of_le_of_lt (Nat.find_min' hex hj0) hj0B,
      Nat.find_spec hex, ?_⟩
    intro j hj
    exact le_of_not_lt (Nat.find_min hex hj)
  · push_neg at hE
    exact absurd (buddhabrotPoints_nil_of_bounded c B hE) h

/-- Hitting the starting value `0` again makes the orbit periodic. -/
theorem zIter_shift_of_eq_zero (c : Complex) (j : ℕ) (hj : zIter c j = ⟨0, 0⟩) :
    ∀ i, zIter c (j + i) = zIter c i := by
  intro i
  induction i with
  | zero => simpa using hj
  | succ i ih =>
    have hadd : j + (i + 1) = (j + i) + 1 := rfl
    rw [hadd, zIter_succ, ih, zIter_succ]

/-! Coordinate-mapper lemmas. -/

theorem ratTrunc_of_nonneg (q : ℚ) (h : 0 ≤ q) : ratTrunc q = ⌊q⌋ :=
  if_pos h

theorem ratTrunc_natCast (n : ℕ) : ratTrunc (n : ℚ) = n := by
  rw [ratTrunc_of_nonneg _ (by positivity)]
  exact Int.floor_natCast n

/-- The column mapper is the row mapper with the imaginary range and the
image width substituted. -/
theorem colFromImaginary_eq_rowFromReal (imag minI maxI : ℚ) (imageWidth : ℕ) :
    colFromImaginary imag minI maxI imageWidth =
      rowFromReal imag minI maxI imageWidth := rfl

/-- The source's `(real - minR) * (imageHeight / (maxR - minR))` agrees with
the spec's `(real - minR) * imageHeight / (maxR - minR)` exactly. -/
theorem rowFromReal_eq_spec (real minR maxR : ℚ) (imageHeight : ℕ) :
    rowFromReal real minR maxR imageHeight =
      ratTrunc ((real - minR) * (imageHeight : ℚ) / (maxR - minR)) := by
  rw [rowFromReal, mul_div_assoc]

/-- A coordinate exactly at the range maximum maps to the out-of-range index
`imageHeight`. -/
theorem rowFromReal_at_max (minR maxR : ℚ) (imageHeight : ℕ) (h : minR < maxR) :
    rowFromReal maxR minR maxR imageHeight = imageHeight := by
  have hd : maxR - minR ≠ 0 := sub_ne_zero.mpr (ne_of_gt h)
  rw [rowFromReal, ← mul_div_assoc, mul_comm, mul_div_assoc,
    div_self hd, mul_one, ratTrunc_natCast]

theorem rowFromReal_nonneg (real minR maxR : ℚ) (imageHeight : ℕ)
    (h1 : minR ≤ real) (h2 : minR < maxR) :
    0 ≤ rowFromReal real minR maxR imageHeight := by
  have hq : (0 : ℚ) ≤ (real - minR) * ((imageHeight : ℚ) / (maxR - minR)) :=
    mul_nonneg (sub_nonneg.mpr h1)
      (div_nonneg (Nat.cast_nonneg imageHeight) (le_of_lt (sub_pos.mpr h2)))
  rw [rowFromReal, ratTrunc_of_nonneg _ hq]
  exact Int.floor_nonneg.mpr hq

theorem rowFromReal_lt (real minR maxR : ℚ) (imageHeight : ℕ)
    (h1 : minR ≤ real) (h2 : real < maxR) (hH : 0 < imageHeight) :
    rowFromReal real minR maxR imageHeight < imageHeight := by
  have hmm : minR < maxR := lt_of_le_of_lt h1 h2
  have hd : (0 : ℚ) < maxR - minR := sub_pos.mpr hmm
  have hscale : (0 : ℚ) < (imageHeight : ℚ) / (maxR - minR) := by
    apply div_pos _ hd
    exact_mod_cast hH
  have hq0 : (0 : ℚ) ≤ (real - minR) * ((imageHeight : ℚ) / (maxR - minR)) :=
    mul_nonneg (sub_nonneg.mpr h1) (le_of_lt hscale)
  have hq : (real - minR) * ((imageHeight : ℚ) / (maxR - minR)) < imageHeight := by
    have hlt : (real - minR) * ((imageHeight : ℚ) / (maxR - minR)) <
        (maxR - minR) * ((imageHeight : ℚ) / (maxR - minR)) :=
      mul_lt_mul_of_pos_right (by linarith) hscale
    have heq : (maxR - minR) * ((imageHeight : ℚ) / (maxR - minR)) = imageHeight := by
      rw [← mul_div_assoc, mul_comm, mul_div_assoc, div_self (ne_of_gt hd), mul_one]
    linarith [hlt, heq.le]
  rw [rowFromReal, ratTrunc_of_nonneg _ hq0]
  exact_mod_cast Int.floor_lt.mpr (by exact_mod_cast hq)

/-- Truncation of a cell-center value: `row + 1/2` truncates to `row`. -/
theorem ratTrunc_add_half (n : ℕ) : ratTrunc ((n : ℚ) + 1 / 2) = n := by
  rw [ratTrunc_of_nonneg _ (by positivity)]
  rw [Int.floor_eq_iff]
  constructor
  · push_cast
    linarith
  · push_cast
    linarith

/-- Round trip through the mapper from the center of a bucket. -/
theorem rowFromReal_cellCenter (minR maxR : ℚ) (imageHeight row : ℕ)
    (h : minR < maxR) (hrow : row < imageHeight) :
    rowFromReal (cellCenterReal minR maxR imageHeight row) minR maxR imageHeight
      = row := by
  have hH : ((imageHeight : ℚ)) ≠ 0 := by
    have hpos : 0 < imageHeight := Nat.pos_of_ne_zero (by omega)
    positivity
  have hd : maxR - minR ≠ 0 := sub_ne_zero.mpr (ne_of_gt h)
  have hmid : (cellCenterReal minR maxR imageHeight row - minR) *
      ((imageHeight : ℚ) / (maxR - minR)) = (row : ℚ) + 1 / 2 := by
    rw [cellCenterReal]
    field_simp
    ring
  rw [rowFromReal, hmid, ratTrunc_add_half]

/-! Generator lemmas: single increments, commutativity, invariants. -/

/-- The source's `if (cell > max) max = cell` update is the maximum. -/
theorem updateMax_eq (m v : ℕ) : (if m < v then v else m) = max m v := by
  rcases Nat.lt_or_ge m v with h | h
  · rw [if_pos h, max_eq_right h.le]
  · rw [if_neg (not_lt.mpr h), max_eq_left h]

theorem bump_self (h : ℤ → ℤ → ℕ) (row col : ℤ) :
    bump h row col row col = h row col + 1 := by
  simp [bump]

theorem bump_of_ne (h : ℤ → ℤ → ℕ) (row col x y : ℤ)
    (hne : ¬(x = row ∧ y = col)) : bump h row col x y = h x y := by
  simp [bump, hne]

theorem bump_comm (h : ℤ → ℤ → ℕ) (r1 c1 r2 c2 : ℤ) :
    bump (bump h r1 c1) r2 c2 = bump (bump h r2 c2) r1 c1 := by
  funext x y
  simp only [bump]
  split_ifs <;> rfl

/-- The filter unpacked into the four comparisons of the source condition. -/
theorem inRect_iff (minimum maximum p : Complex) :
    inRect minimum maximum p = true ↔
      p.r ≤ maximum.r ∧ minimum.r ≤ p.r ∧ p.i ≤ maximum.i ∧ minimum.i ≤ p.i := by
  simp [inRect, and_assoc]

/-- Unfolding of the accumulation step on a point that passes the filter. -/
theorem accumulatePoint_of_inRect (minimum maximum : Complex) (W H : ℕ)
    (st : GenState) (p : Complex) (hp : inRect minimum maximum p = true) :
    accumulatePoint minimum maximum W H st p =
      { heatmap := bump st.heatmap (rowFromReal p.r minimum.r maximum.r H)
          (colFromImaginary p.i minimum.i maximum.i W)
        maxHeatmapValue := max st.maxHeatmapValue
          (st.heatmap (rowFromReal p.r minimum.r maximum.r H)
            (colFromImaginary p.i minimum.i maximum.i W) + 1) } := by
  rw [accumulatePoint, if_pos hp]
  simp only [bump_self, updateMax_eq]

theorem accumulatePoint_of_not_inRect (minimum maximum : Complex) (W H : ℕ)
    (st : GenState) (p : Complex) (hp : ¬(inRect minimum maximum p = true)) :
    accumulatePoint minimum maximum W H st p = st := by
  rw [accumulatePoint, if_neg hp]

theorem max_swap_right (a b c : ℕ) : max (max a b) c = max (max a c) b := by
  rw [max_assoc, max_comm b c, ← max_assoc]

/-- Core of the commutation argument, with the two target cells abstract. -/
theorem bump_state_comm (h : ℤ → ℤ → ℕ) (m : ℕ) (r1 c1 r2 c2 : ℤ) :
    GenState.mk (bump (bump h r1 c1) r2 c2)
        (max (max m (h r1 c1 + 1)) (bump h r1 c1 r2 c2 + 1)) =
      GenState.mk (bump (bump h r2 c2) r1 c1)
        (max (max m (h r2 c2 + 1)) (bump h r2 c2 r1 c1 + 1)) := by
  by_cases hpq : r2 = r1 ∧ c2 = c1
  · obtain ⟨h1, h2⟩ := hpq
    subst h1
    subst h2
    rfl
  · have hqp : ¬(r1 = r2 ∧ c1 = c2) := by
      intro hco
      exact hpq ⟨hco.1.symm, hco.2.symm⟩
    have h1 : bump h r1 c1 r2 c2 = h r2 c2 := bump_of_ne _ _ _ _ _ hpq
    have h2 : bump h r2 c2 r1 c1 = h r1 c1 := bump_of_ne _ _ _ _ _ hqp
    refine GenState.ext ?_ ?_
    · exact bump_comm _ _ _ _ _
    · simp only [h1, h2]
      exact max_swap_right _ _ _

/-- Two accumulation steps commute: the heatmap increments are independent
updates and the running maximum absorbs the two new cell values in either
order. -/
theorem accumulatePoint_comm (minimum maximum : Complex) (W H : ℕ)
    (st : GenState) (p q : Complex) :
    accumulatePoint minimum maximum W H (accumulatePoint minimum maximum W H st p) q =
      accumulatePoint minimum maximum W H (accumulatePoint minimum maximum W H st q) p := by
  by_cases hp : inRect minimum maximum p = true
  · by_cases hq : inRect minimum maximum q = true
    · rw [accumulatePoint_of_inRect _ _ _ _ _ _ hp,
        accumulatePoint_of_inRect _ _ _ _ _ _ hq,
        accumulatePoint_of_inRect _ _ _ _ _ _ hq,
        accumulatePoint_of_inRect _ _ _ _ _ _ hp]
      exact bump_state_comm st.heatmap st.maxHeatmapValue _ _ _ _
    · rw [accumulatePoint_of_not_inRect _ _ _ _ _ _ hq,
        accumulatePoint_of_not_inRect _ _ _ _ _ _ hq]
  · rw [accumulatePoint_of_not_inRect _ _ _ _ _ _ hp,
      accumulatePoint_of_not_inRect _ _ _ _ _ _ hp]

/-- Folding a pairwise-commuting step: a single element moves through a fold. -/
theorem foldl_step_comm {α β : Type} (f : β → α → β)
    (hf : ∀ s a b, f (f s a) b = f (f s b) a) :
    ∀ (l : List α) (s : β) (a : α), List.foldl f (f s a) l = f (List.foldl f s l) a := by
  intro l
  induction l with
  | nil => intro s a; rfl
  | cons x t ih =>
    intro s a
    simp only [List.foldl_cons]
    rw [hf s a x, ih]

/-- Two folds of a pairwise-commuting step commute as blocks. -/
theorem foldl_foldl_comm {α β : Type} (f : β → α → β)
    (hf : ∀ s a b, f (f s a) b = f (f s b) a) (l1 l2 : List α) :
    ∀ s, List.foldl f (List.foldl f s l1) l2 = List.foldl f (List.foldl f s l2) l1 := by
  induction l1 with
  | nil => intro s; rfl
  | cons x t ih =>
    intro s
    simp only [List.foldl_cons]
    rw [ih (f s x), foldl_step_comm f hf l2 s x]

/-- A fold of a pairwise-commuting step is invariant under permutation. -/
theorem foldl_perm {α β : Type} (f : β → α → β)
    (hf : ∀ s a b, f (f s a) b = f (f s b) a) {l1 l2 : List α}
    (hp : l1.Perm l2) : ∀ s, List.foldl f s l1 = List.foldl f s l2 := by
  induction hp with
  | nil => intro s; rfl
  | cons x _ ih =>
    intro s
    simp only [List.foldl_cons]
    exact ih (f s x)
  | swap x y t =>
    intro s
    simp only [List.foldl_cons]
    rw [hf s y x]
  | trans _ _ ih1 ih2 =>
    intro s
    rw [ih1 s, ih2 s]

/-- Processing two samples commutes. -/
theorem processSample_comm (minimum maximum : Complex) (W H B : ℕ)
    (st : GenState) (x y : Complex) :
    processSample minimum maximum W H B (processSample minimum maximum W H B st x) y =
      processSample minimum maximum W H B (processSample minimum maximum W H B st y) x := by
  rw [processSample, processSample, processSample, processSample]
  exact foldl_foldl_comm _ (fun s a b => accumulatePoint_comm minimum maximum W H s a b)
    (buddhabrotPoints x B) (buddhabrotPoints y B) st

/-! Running-maximum invariants. -/

/-- One accumulation step preserves "every cell is at most the running max". -/
theorem accumulatePoint_cell_le (minimum maximum : Complex) (W H : ℕ)
    (st : GenState) (p : Complex)
    (hinv : ∀ x y, st.heatmap x y ≤ st.maxHeatmapValue) :
    ∀ x y, (accumulatePoint minimum maximum W H st p).heatmap x y ≤
      (accumulatePoint minimum maximum W H st p).maxHeatmapValue := by
  by_cases hp : inRect minimum maximum p = true
  · rw [accumulatePoint_of_inRect _ _ _ _ _ _ hp]
    intro x y
    simp only
    by_cases hxy : x = rowFromReal p.r minimum.r maximum.r H ∧
        y = colFromImaginary p.i minimum.i maximum.i W
    · obtain ⟨h1, h2⟩ := hxy
      subst h1
      subst h2
      rw [bump_self]
      exact le_max_right _ _
    · rw [bump_of_ne _ _ _ _ _ hxy]
      exact le_trans (hinv x y) (le_max_left _ _)
  · rw [accumulatePoint_of_not_inRect _ _ _ _ _ _ hp]
    exact hinv

/-- One accumulation step never decreases the running max. -/
theorem accumulatePoint_max_mono (minimum maximum : Complex) (W H : ℕ)
    (st : GenState) (p : Complex) :
    st.maxHeatmapValue ≤ (accumulatePoint minimum maximum W H st p).maxHeatmapValue := by
  by_cases hp : inRect minimum maximum p = true
  · rw [accumulatePoint_of_inRect _ _ _ _ _ _ hp]
    exact le_max_left _ _
  · rw [accumulatePoint_of_not_inRect _ _ _ _ _ _ hp]

theorem foldl_points_cell_le (minimum maximum : Complex) (W H : ℕ) :
    ∀ (pts : List Complex) (st : GenState),
      (∀ x y, st.heatmap x y ≤ st.maxHeatmapValue) →
      ∀ x y, (pts.foldl (accumulatePoint minimum maximum W H) st).heatmap x y ≤
        (pts.foldl (accumulatePoint minimum maximum W H) st).maxHeatmapValue := by
  intro pts
  induction pts with
  | nil => intro st hinv; exact hinv
  | cons p t ih =>
    intro st hinv
    exact ih _ (accumulatePoint_cell_le minimum maximum W H st p hinv)

theorem foldl_points_max_mono (minimum maximum : Complex) (W H : ℕ) :
    ∀ (pts : List Complex) (st : GenState),
      st.maxHeatmapValue ≤
        (pts.foldl (accumulatePoint minimum maximum W H) st).maxHeatmapValue := by
  intro pts
  induction pts with
  | nil => intro st; exact le_refl _
  | cons p t ih =>
    intro st
    exact le_trans (accumulatePoint_max_mono minimum maximum W H st p) (ih _)

/-- Every cell is at most the running max after any number of samples. -/
theorem GenerateHeatmap_cell_le (minimum maximum : Complex) (W H B : ℕ) :
    ∀ (samples : List Complex) (st : GenState),
      (∀ x y, st.heatmap x y ≤ st.maxHeatmapValue) →
      ∀ x y, (GenerateHeatmap minimum maximum W H B samples st).heatmap x y ≤
        (GenerateHeatmap minimum maximum W H B samples st).maxHeatmapValue := by
  intro samples
  induction samples with
  | nil => intro st hinv; exact hinv
  | cons c t ih =>
    intro st hinv
    exact ih _ (foldl_points_cell_le minimum maximum W H _ st hinv)

/-- The running max never decreases over a generation pass. -/
theorem GenerateHeatmap_max_mono (minimum maximum : Complex) (W H B : ℕ) :
    ∀ (samples : List Complex) (st : GenState),
      st.maxHeatmapValue ≤
        (GenerateHeatmap minimum maximum W H B samples st).maxHeatmapValue := by
  intro samples
  induction samples with
  | nil => intro st; exact le_refl _
  | cons c t ih =>
    intro st
    exact le_trans (foldl_points_max_mono minimum maximum W H _ st) (ih _)

/-! Exact value of the running maximum via `gridMax`. -/

theorem gridMax_zero (W H : ℕ) : gridMax zeroHeatmap W H = 0 := by
  apply Nat.le_antisymm
  · exact Finset.sup_le (fun p _ => le_refl 0)
  · exact Nat.zero_le _

/-- Bumping an in-grid cell raises the grid maximum to at least the new cell
value and otherwise leaves it. -/
theorem gridMax_bump (h : ℤ → ℤ → ℕ) (W H : ℕ) (row col : ℤ)
    (hr0 : 0 ≤ row) (hrH : row < (H : ℤ)) (hc0 : 0 ≤ col) (hcW : col < (W : ℤ)) :
    gridMax (bump h row col) W H = max (gridMax h W H) (h row col + 1) := by
  have hmem : (row.toNat, col.toNat) ∈ Finset.range H ×ˢ Finset.range W := by
    rw [Finset.mem_product, Finset.mem_range, Finset.mem_range]
    omega
  have hcast : ((row.toNat : ℤ), (col.toNat : ℤ)) = (row, col) := by
    rw [Int.toNat_of_nonneg hr0, Int.toNat_of_nonneg hc0]
  have hsplit : ∀ g : ℤ → ℤ → ℕ,
      (Finset.range H ×ˢ Finset.range W).sup (fun p => g (p.1 : ℤ) (p.2 : ℤ)) =
        max (g row col) (((Finset.range H ×ˢ Finset.range W).erase
          (row.toNat, col.toNat)).sup (fun p => g (p.1 : ℤ) (p.2 : ℤ))) := by
    intro g
    rw [← Finset.insert_erase hmem, Finset.sup_insert]
    have : ((row.toNat : ℤ)) = row := Int.toNat_of_nonneg hr0
    have hco : ((col.toNat : ℤ)) = col := Int.toNat_of_nonneg hc0
    rw [Finset.insert_erase hmem]
    simp only [this, hco]
  have herase : (((Finset.range H ×ˢ Finset.range W).erase
      (row.toNat, col.toNat)).sup (fun p => bump h row col (p.1 : ℤ) (p.2 : ℤ))) =
      (((Finset.range H ×ˢ Finset.range W).erase
        (row.toNat, col.toNat)).sup (fun p => h (p.1 : ℤ) (p.2 : ℤ))) := by
    apply Finset.sup_congr rfl
    intro p hpmem
    have hne : p ≠ (row.toNat, col.toNat) := Finset.ne_of_mem_erase hpmem
    apply bump_of_ne
    intro hco
    apply hne
    have h1 : p.1 = row.toNat := by omega
    have h2 : p.2 = col.toNat := by omega
    exact Prod.ext h1 h2
  rw [gridMax, gridMax, hsplit (bump h row col), hsplit h, herase, bump_self]
  apply Nat.le_antisymm
  · apply max_le
    · exact le_max_right _ _
    · exact le_trans (le_max_right (h row col) _) (le_max_left _ _)
  · apply max_le
    · apply max_le
      · exact le_trans (Nat.le_succ _) (le_max_left _ _)
      · exact le_max_right _ _
    · exact le_max_left _ _

/-- Accumulating one point whose filtered coordinates are strictly inside the
rectangle keeps the running max equal to `max m0 (grid maximum)`. -/
theorem accumulatePoint_J (minimum maximum : Complex) (W H : ℕ)
    (hr : minimum.r < maximum.r) (hi : minimum.i < maximum.i)
    (hW : 0 < W) (hH : 0 < H) (st : GenState) (p : Complex)
    (hp : inRect minimum maximum p = true → strictlyInside maximum p)
    (m0 : ℕ) (hJ : st.maxHeatmapValue = max m0 (gridMax st.heatmap W H)) :
    (accumulatePoint minimum maximum W H st p).maxHeatmapValue =
      max m0 (gridMax (accumulatePoint minimum maximum W H st p).heatmap W H) := by
  by_cases hf : inRect minimum maximum p = true
  · obtain ⟨hsr, hsi⟩ := hp hf
    have hcmp := (inRect_iff minimum maximum p).mp hf
    obtain ⟨h1, h2, h3, h4⟩ := hcmp
    have hrow0 : 0 ≤ rowFromReal p.r minimum.r maximum.r H :=
      rowFromReal_nonneg _ _ _ _ h2 hr
    have hrowH : rowFromReal p.r minimum.r maximum.r H < (H : ℤ) :=
      rowFromReal_lt _ _ _ _ h2 hsr hH
    have hcol0 : 0 ≤ colFromImaginary p.i minimum.i maximum.i W := by
      rw [colFromImaginary_eq_rowFromReal]
      exact rowFromReal_nonneg _ _ _ _ h4 hi
    have hcolW : colFromImaginary p.i minimum.i maximum.i W < (W : ℤ) := by
      rw [colFromImaginary_eq_rowFromReal]
      exact rowFromReal_lt _ _ _ _ h4 hsi hW
    rw [accumulatePoint_of_inRect _ _ _ _ _ _ hf]
    simp only
    rw [gridMax_bump st.heatmap W H _ _ hrow0 hrowH hcol0 hcolW, hJ, max_assoc]
  · rw [accumulatePoint_of_not_inRect _ _ _ _ _ _ hf]
    exact hJ

theorem foldl_points_J (minimum maximum : Complex) (W H : ℕ)
    (hr : minimum.r < maximum.r) (hi : minimum.i < maximum.i)
    (hW : 0 < W) (hH : 0 < H) :
    ∀ (pts : List Complex),
      (∀ p ∈ pts, inRect minimum maximum p = true → strictlyInside maximum p) →
      ∀ (st : GenState) (m0 : ℕ),
        st.maxHeatmapValue = max m0 (gridMax st.heatmap W H) →
        (pts.foldl (accumulatePoint minimum maximum W H) st).maxHeatmapValue =
          max m0 (gridMax
            ((pts.foldl (accumulatePoint minimum maximum W H) st)).heatmap W H) := by
  intro pts
  induction pts with
  | nil => intro _ st m0 hJ; exact hJ
  | cons p t ih =>
    intro hpts st m0 hJ
    refine ih (fun q hq => hpts q (List.mem_cons_of_mem p hq)) _ m0 ?_
    exact accumulatePoint_J minimum maximum W H hr hi hW hH st p
      (hpts p (List.mem_cons_self p t)) m0 hJ

theorem GenerateHeatmap_J (minimum maximum : Complex) (W H B : ℕ)
    (hr : minimum.r < maximum.r) (hi : minimum.i < maximum.i)
    (hW : 0 < W) (hH : 0 < H) :
    ∀ (samples : List Complex),
      (∀ c ∈ samples, ∀ p ∈ buddhabrotPoints c B,
        inRect minimum maximum p = true → strictlyInside maximum p) →
      ∀ (st : GenState) (m0 : ℕ),
        st.maxHeatmapValue = max m0 (gridMax st.heatmap W H) →
        (GenerateHeatmap minimum maximum W H B samples st).maxHeatmapValue =
          max m0 (gridMax
            (GenerateHeatmap minimum maximum W H B samples st).heatmap W H) := by
  intro samples
  induction samples with
  | nil => intro _ st m0 hJ; exact hJ
  | cons c t ih =>
    intro hs st m0 hJ
    refine ih (fun d hd => hs d (List.mem_cons_of_mem c hd)) _ m0 ?_
    exact foldl_points_J minimum maximum W H hr hi hW hH _
      (hs c (List.mem_cons_self c t)) st m0 hJ

/-- A generation pass starting from a fresh all-zero heatmap and a carried-in
running maximum `m` ends with running maximum `max m (grid maximum of the
produced heatmap)`. -/
theorem GenerateHeatmap_max_eq (minimum maximum : Complex) (W H B : ℕ)
    (hr : minimum.r < maximum.r) (hi : minimum.i < maximum.i)
    (hW : 0 < W) (hH : 0 < H) (samples : List Complex)
    (hs : ∀ c ∈ samples, ∀ p ∈ buddhabrotPoints c B,
      inRect minimum maximum p = true → strictlyInside maximum p) (m : ℕ) :
    (GenerateHeatmap minimum maximum W H B samples (initState m)).maxHeatmapValue =
      max m (gridMax (GenerateHeatmap minimum maximum W H B samples
        (initState m)).heatmap W H) := by
  apply GenerateHeatmap_J minimum maximum W H B hr hi hW hH samples hs
  show m = max m (gridMax zeroHeatmap W H)
  rw [gridMax_zero, max_eq_left (Nat.zero_le m)]

/-! Concrete trajectory evaluations, shared by several witnesses. -/

/-- The orbit of `c = (-2, -2)` escapes at the first iteration. -/
theorem firstEscape_neg2 :
    2 < (zIter ⟨-2, -2⟩ 1).sqmagnitude ∧
      ∀ j, j < 1 → (zIter (⟨-2, -2⟩ : Complex) j).sqmagnitude ≤ 2 := by
  constructor
  · rw [zIter_one]
    norm_num [Complex.sqmagnitude]
  · intro j hj
    have hj0 : j = 0 := by omega
    subst hj0
    norm_num [zIter_zero, Complex.sqmagnitude]

/-- Sampling `c = (-2, -2)` with any budget above `1` returns the singleton
trajectory `[(-2, -2)]`. -/
theorem points_neg2 (B : ℕ) (hB : 1 < B) :
    buddhabrotPoints ⟨-2, -2⟩ B = [⟨-2, -2⟩] := by
  obtain ⟨hesc, hprev⟩ := firstEscape_neg2
  rw [buddhabrotPoints_of_firstEscape _ 1 hesc hprev B, if_pos hB]
  norm_num [List.range', zIter_one]

/-- The orbit of `c = (1, 0)` escapes at the second iteration, passing
through `(1,0)` and then landing exactly on the boundary point `(2,0)`. -/
theorem firstEscape_one_zero :
    zIter (⟨1, 0⟩ : Complex) 1 = ⟨1, 0⟩ ∧ zIter (⟨1, 0⟩ : Complex) 2 = ⟨2, 0⟩ ∧
      2 < (zIter (⟨1, 0⟩ : Complex) 2).sqmagnitude ∧
      ∀ j, j < 2 → (zIter (⟨1, 0⟩ : Complex) j).sqmagnitude ≤ 2 := by
  have h1 : zIter (⟨1, 0⟩ : Complex) 1 = ⟨1, 0⟩ := zIter_one _
  have h2 : zIter (⟨1, 0⟩ : Complex) 2 = ⟨2, 0⟩ := by
    rw [zIter_succ, h1]
    norm_num
  refine ⟨h1, h2, ?_, ?_⟩
  · rw [h2]
    norm_num [Complex.sqmagnitude]
  · intro j hj
    match j, hj with
    | 0, _ => norm_num [zIter_zero, Complex.sqmagnitude]
    | 1, _ =>
      rw [h1]
      norm_num [Complex.sqmagnitude]

/-- Sampling `c = (1, 0)` with any budget above `2` returns the trajectory
`[(1,0), (2,0)]`, whose final point lies exactly on the rectangle maximum. -/
theorem points_one_zero (B : ℕ) (hB : 2 < B) :
    buddhabrotPoints ⟨1, 0⟩ B = [⟨1, 0⟩, ⟨2, 0⟩] := by
  obtain ⟨h1, h2, hesc, hprev⟩ := firstEscape_one_zero
  rw [buddhabrotPoints_of_firstEscape _ 2 hesc hprev B, if_pos hB]
  norm_num [List.range', h1, h2]

/-- Claim C3 (confirmed): for every sample point `c` and positive iteration
budget `B`, if the iteration `z <- z^2 + c` from `z = 0` never reaches
squared magnitude above `2.0` within `B` iterations, the trajectory sampler
returns the empty sequence. -/
theorem C3_nonescape_empty (c : Complex) (B : ℕ) (hB : 0 < B)
    (h : ∀ j, j ≤ B → (zIter c j).sqmagnitude ≤ 2) :
    buddhabrotPoints c B = [] :=
  buddhabrotPoints_nil_of_bounded c B (fun j hj => h j (le_of_lt hj))

/-- Witness for C3 at `c = 0`, `B = 3`: the orbit stays at `0` and the
sampler returns the empty trajectory. -/
theorem C3_nonescape_empty_witness : buddhabrotPoints ⟨0, 0⟩ 3 = [] := by
  apply C3_nonescape_empty ⟨0, 0⟩ 3 (by norm_num)
  intro j hj
  have hz : ∀ i, zIter (⟨0, 0⟩ : Complex) i = ⟨0, 0⟩ := by
    intro i
    induction i with
    | zero => rfl
    | succ i ih =>
      rw [zIter_succ, ih]
      norm_num
  rw [hz j]
  norm_num [Complex.sqmagnitude]

/-- Counterexample to claim C2 as stated: at `c = (-2, -2)` with budget
`B = 1` the orbit first escapes at iteration `k = 1 ≤ B`, yet the sampler
returns the empty trajectory (length `0`, not `k`): escape exactly at the
final budgeted iteration is discarded by the `n == nIterations` test. -/
theorem C2_counterexample :
    (zIter (⟨-2, -2⟩ : Complex) 0).sqmagnitude ≤ 2 ∧
      2 < (zIter (⟨-2, -2⟩ : Complex) 1).sqmagnitude ∧
      buddhabrotPoints ⟨-2, -2⟩ 1 = [] ∧
      (buddhabrotPoints ⟨-2, -2⟩ 1).length ≠ 1 := by
  obtain ⟨hesc, hprev⟩ := firstEscape_neg2
  have hpts : buddhabrotPoints ⟨-2, -2⟩ 1 = [] := by
    rw [buddhabrotPoints_of_firstEscape _ 1 hesc hprev 1, if_neg (by omega)]
  refine ⟨hprev 0 (by omega), hesc, hpts, ?_⟩
  rw [hpts]
  norm_num

/-- Claim C2 (corrected): for every sample point `c` and budget `B`, if the
iteration first exceeds squared magnitude `2.0` at iteration `k` with
`k < B` (strictly before the budget), the sampler returns a sequence of
length exactly `k` whose last element has squared magnitude above `2.0` and
whose prior elements all have squared magnitude at most `2.0`. -/
theorem C2_escape_length (c : Complex) (B k : ℕ) (hkB : k < B)
    (hesc : 2 < (zIter c k).sqmagnitude)
    (hprev : ∀ j, j < k → (zIter c j).sqmagnitude ≤ 2) :
    (buddhabrotPoints c B).length = k ∧
      (buddhabrotPoints c B).getLast? = some (zIter c k) ∧
      2 < (zIter c k).sqmagnitude ∧
      ∀ p ∈ (buddhabrotPoints c B).dropLast, p.sqmagnitude ≤ 2 := by
  have hpts := buddhabrotPoints_of_firstEscape c k hesc hprev B
  rw [if_pos hkB] at hpts
  have hk1 : 1 ≤ k := by
    by_contra hk0
    have : k = 0 := by omega
    subst this
    rw [zIter_zero] at hesc
    norm_num [Complex.sqmagnitude] at hesc
  have hrange : List.range' 1 k = List.range' 1 (k - 1) ++ [k] := by
    have hk : k = (k - 1) + 1 := by omega
    conv_lhs => rw [hk]
    rw [List.range'_concat]
    congr 2
    omega
  refine ⟨?_, ?_, hesc, ?_⟩
  · rw [hpts]
    simp
  · rw [hpts, hrange]
    simp
  · intro p hp
    rw [hpts, hrange] at hp
    simp only [List.map_append, List.map_cons, List.map_nil,
      List.dropLast_concat, List.mem_map, List.mem_range'_1] at hp
    obtain ⟨j, ⟨hj1, hjk⟩, hpj⟩ := hp
    rw [← hpj]
    exact hprev j (by omega)

/-- Witness for the corrected C2 at `c = (-2, -2)`, `B = 2`, `k = 1`: the
escape is strictly before the budget and the returned trajectory has length
exactly `1`. -/
theorem C2_escape_length_witness : (buddhabrotPoints ⟨-2, -2⟩ 2).length = 1 :=
  (C2_escape_length ⟨-2, -2⟩ 2 1 (by omega) firstEscape_neg2.1 firstEscape_neg2.2).1

/-- Claim C10 (confirmed): a non-empty returned trajectory starts with `c`
itself (the first recorded value is `0^2 + c`), and the starting value
`z = 0` never occurs among the returned points. -/
theorem C10_first_element (c : Complex) (B : ℕ)
    (h : buddhabrotPoints c B ≠ []) :
    (buddhabrotPoints c B).head? = some c ∧
      (⟨0, 0⟩ : Complex) ∉ buddhabrotPoints c B := by
  obtain ⟨k, hkB, hesc, hprev⟩ := exists_firstEscape_of_ne_nil c B h
  have hpts := buddhabrotPoints_of_firstEscape c k hesc hprev B
  rw [if_pos hkB] at hpts
  have hk1 : 1 ≤ k := by
    by_contra hk0
    have : k = 0 := by omega
    subst this
    rw [zIter_zero] at hesc
    norm_num [Complex.sqmagnitude] at hesc
  constructor
  · have hrange : List.range' 1 k = 1 :: List.range' 2 (k - 1) := by
      have hk : k = (k - 1) + 1 := by omega
      conv_lhs => rw [hk]
      rw [List.range'_succ]
    rw [hpts, hrange]
    simp [zIter_one]
  · rw [hpts]
    intro hmem
    rw [List.mem_map] at hmem
    obtain ⟨j, hjmem, hj0⟩ := hmem
    rw [List.mem_range'_1] at hjmem
    obtain ⟨hj1, hjk⟩ := hjmem
    by_cases hjeq : j = k
    · subst hjeq
      rw [hj0] at hesc
      norm_num [Complex.sqmagnitude] at hesc
    · have hjlt : j < k := by omega
      have hper := zIter_shift_of_eq_zero c j hj0 (k - j)
      have hjk2 : j + (k - j) = k := by omega
      rw [hjk2] at hper
      have hle := hprev (k - j) (by omega)
      rw [← hper] at hle
      linarith [hesc, hle]

/-- Witness for C10 at `c = (-2, -2)`, `B = 2`: the trajectory `[(-2, -2)]`
is non-empty, starts with `c`, and does not contain `0`. -/
theorem C10_first_element_witness :
    (buddhabrotPoints ⟨-2, -2⟩ 2).head? = some (⟨-2, -2⟩ : Complex) ∧
      (⟨0, 0⟩ : Complex) ∉ buddhabrotPoints ⟨-2, -2⟩ 2 :=
  C10_first_element ⟨-2, -2⟩ 2 (by rw [points_neg2 2 (by omega)]; simp)

/-- Claim C1 (refuted; code bug): the generator's filter keeps points that
are exactly at the viewing-rectangle maximum (its comparison is `<=`, not
`<`), and for such a point the mapper returns row index `imageHeight`, so
the heatmap increment writes outside the allocated `height x width` grid.
Concretely: the sample `c = (1, 0)` (inside the sampled rectangle) has the
trajectory `[(1,0), (2,0)]` under the red-channel budget; the point `(2,0)`
passes the filter, maps to row `IMAGE_HEIGHT = 200`, which is not below
`IMAGE_HEIGHT`, and the accumulation step increments the out-of-range cell
`(200, col)`. -/
theorem C1_boundary_write :
    (⟨2, 0⟩ : Complex) ∈ buddhabrotPoints ⟨1, 0⟩ RED_ITERS ∧
      inRect MINIMUM MAXIMUM ⟨2, 0⟩ = true ∧
      rowFromReal (2 : ℚ) MINIMUM.r MAXIMUM.r IMAGE_HEIGHT = (IMAGE_HEIGHT : ℤ) ∧
      ¬(rowFromReal (2 : ℚ) MINIMUM.r MAXIMUM.r IMAGE_HEIGHT < (IMAGE_HEIGHT : ℤ)) ∧
      (accumulatePoint MINIMUM MAXIMUM IMAGE_WIDTH IMAGE_HEIGHT
          { heatmap := zeroHeatmap, maxHeatmapValue := 0 } ⟨2, 0⟩).heatmap
        (rowFromReal (2 : ℚ) MINIMUM.r MAXIMUM.r IMAGE_HEIGHT)
        (colFromImaginary (0 : ℚ) MINIMUM.i MAXIMUM.i IMAGE_WIDTH) = 1 := by
  have hmem : (⟨2, 0⟩ : Complex) ∈ buddhabrotPoints ⟨1, 0⟩ RED_ITERS := by
    rw [RED_ITERS, points_one_zero 200 (by omega)]
    simp
  have hrect : inRect MINIMUM MAXIMUM ⟨2, 0⟩ = true := by
    rw [inRect_iff]
    norm_num [MINIMUM, MAXIMUM]
  have hrow : rowFromReal (2 : ℚ) MINIMUM.r MAXIMUM.r IMAGE_HEIGHT = (IMAGE_HEIGHT : ℤ) := by
    have : MINIMUM.r = (-2 : ℚ) := rfl
    rw [this]
    have h2 : MAXIMUM.r = (2 : ℚ) := rfl
    conv_lhs => rw [show (2 : ℚ) = MAXIMUM.r from rfl]
    rw [h2]
    exact rowFromReal_at_max (-2) 2 IMAGE_HEIGHT (by norm_num)
  refine ⟨hmem, hrect, hrow, by rw [hrow]; omega, ?_⟩
  rw [accumulatePoint_of_inRect _ _ _ _ _ _ hrect]
  simp only
  rw [bump_self]
  rfl

/-- Claim C4 (refuted; code bug): with sample count `0` (the spec's
degenerate scenario, viewing rectangle `[-2,-2] x [2,2]`, image `10 x 10`,
budget `1`), generation leaves every heatmap cell `0` and `GlobalMaxCount`
at `0`, and the normalizer then performs the division
`maxColor / maxHeatmapValue` with a zero divisor — no configuration check
and no zero special-case exists in the code (`none` marks the non-finite
IEEE result of the unguarded division). -/
theorem C4_zero_max_unguarded :
    (GenerateHeatmap ⟨-2, -2⟩ ⟨2, 2⟩ 10 10 1 []
        { heatmap := zeroHeatmap, maxHeatmapValue := 0 }).maxHeatmapValue = 0 ∧
      (GenerateHeatmap ⟨-2, -2⟩ ⟨2, 2⟩ 10 10 1 []
        { heatmap := zeroHeatmap, maxHeatmapValue := 0 }).heatmap = zeroHeatmap ∧
      colorFromHeatmapChecked 0 0 1 = none := by
  refine ⟨rfl, rfl, ?_⟩
  rw [colorFromHeatmapChecked, if_pos (by norm_num)]

/-- Claim C5 (confirmed): for `0 ≤ v ≤ M`, `M > 0` and target maximum
intensity `1.0`, the normalizer returns `v * target / M`; the result lies in
`[0, target]` and the cell holding `GlobalMaxCount` normalizes to exactly
the target. -/
theorem C5_normalizer (v M : ℚ) (h0 : 0 ≤ v) (hvM : v ≤ M) (hM : 0 < M) :
    colorFromHeatmap v M 1 = v * 1 / M ∧
      0 ≤ colorFromHeatmap v M 1 ∧ colorFromHeatmap v M 1 ≤ 1 ∧
      (v = M → colorFromHeatmap v M 1 = 1) := by
  have he : colorFromHeatmap v M 1 = v / M := by
    rw [colorFromHeatmap, one_mul, one_mul, mul_one_div]
  refine ⟨?_, ?_, ?_, ?_⟩
  · rw [he, mul_one]
  · rw [he]
    exact div_nonneg h0 hM.le
  · rw [he]
    exact (div_le_one hM).mpr hvM
  · intro hvM2
    rw [he, hvM2]
    exact div_self (ne_of_gt hM)

/-- Witness for C5 at `v = 1`, `M = 2`: the normalized value is `1 * 1 / 2`. -/
theorem C5_normalizer_witness : colorFromHeatmap 1 2 1 = 1 * 1 / 2 :=
  (C5_normalizer 1 2 (by norm_num) (by norm_num) (by norm_num)).1

/-- Claim C8 (confirmed): the mapper computes
`trunc((value - min) * size / (max - min))` (truncation toward zero), for
rows with `imageHeight` over `[minR, maxR]` and for columns with
`imageWidth` over `[minI, maxI]`; a coordinate exactly at the maximum maps
to the out-of-range index `imageHeight` (resp. `imageWidth`). -/
theorem C8_mapper (value imag minR maxR minI maxI : ℚ) (imageWidth imageHeight : ℕ)
    (hR : minR < maxR) (hI : minI < maxI)
    (hv1 : minR ≤ value) (hv2 : value ≤ maxR)
    (hw1 : minI ≤ imag) (hw2 : imag ≤ maxI) :
    rowFromReal value minR maxR imageHeight =
        ratTrunc ((value - minR) * (imageHeight : ℚ) / (maxR - minR)) ∧
      colFromImaginary imag minI maxI imageWidth =
        ratTrunc ((imag - minI) * (imageWidth : ℚ) / (maxI - minI)) ∧
      rowFromReal maxR minR maxR imageHeight = (imageHeight : ℤ) ∧
      colFromImaginary maxI minI maxI imageWidth = (imageWidth : ℤ) := by
  refine ⟨rowFromReal_eq_spec _ _ _ _, ?_, rowFromReal_at_max _ _ _ hR, ?_⟩
  · rw [colFromImaginary_eq_rowFromReal]
    exact rowFromReal_eq_spec _ _ _ _
  · rw [colFromImaginary_eq_rowFromReal]
    exact rowFromReal_at_max _ _ _ hI

/-- Witness for C8 on the program's rectangle `[-2, 2]^2` with a `200 x 200`
image: the mapper formula at `value = 1`, `imag = 0`, and the out-of-range
boundary values. -/
theorem C8_mapper_witness :
    rowFromReal 1 (-2) 2 200 = ratTrunc ((1 - (-2)) * (200 : ℚ) / (2 - (-2))) ∧
      colFromImaginary 0 (-2) 2 200 =
        ratTrunc ((0 - (-2)) * (200 : ℚ) / (2 - (-2))) ∧
      rowFromReal 2 (-2) 2 200 = (200 : ℤ) ∧
      colFromImaginary 2 (-2) 2 200 = (200 : ℤ) :=
  C8_mapper 1 0 (-2) 2 (-2) 2 200 200 (by norm_num) (by norm_num)
    (by norm_num) (by norm_num) (by norm_num) (by norm_num)

/-- Claim C9 (confirmed): mapping the real/imaginary coordinates of the
center of the bucket of any in-range cell `(row, col)` through the mapper
returns exactly `(row, col)`. -/
theorem C9_round_trip (minR maxR minI maxI : ℚ) (imageWidth imageHeight row col : ℕ)
    (hR : minR < maxR) (hI : minI < maxI)
    (hrow : row < imageHeight) (hcol : col < imageWidth) :
    rowFromReal (cellCenterReal minR maxR imageHeight row) minR maxR imageHeight
        = (row : ℤ) ∧
      colFromImaginary (cellCenterImag minI maxI imageWidth col) minI maxI imageWidth
        = (col : ℤ) := by
  refine ⟨rowFromReal_cellCenter _ _ _ _ hR hrow, ?_⟩
  rw [colFromImaginary_eq_rowFromReal]
  have hcc : cellCenterImag minI maxI imageWidth col =
      cellCenterReal minI maxI imageWidth col := rfl
  rw [hcc]
  exact rowFromReal_cellCenter _ _ _ _ hI hcol

/-- Witness for C9 on the program's rectangle with a `200 x 200` image at
cell `(3, 7)`. -/
theorem C9_round_trip_witness :
    rowFromReal (cellCenterReal (-2) 2 200 3) (-2) 2 200 = (3 : ℤ) ∧
      colFromImaginary (cellCenterImag (-2) 2 200 7) (-2) 2 200 = (7 : ℤ) :=
  C9_round_trip (-2) 2 (-2) 2 200 200 3 7 (by norm_num) (by norm_num)
    (by norm_num) (by norm_num)

/-- Claim C7 (confirmed): for a fixed multiset of sample points (the same
random draws), running the generator on any permutation of the samples
yields an identical final heatmap and an identical final running maximum. -/
theorem C7_order_independence (minimum maximum : Complex) (W H B : ℕ)
    (l1 l2 : List Complex) (st : GenState) (hperm : l1.Perm l2) :
    (GenerateHeatmap minimum maximum W H B l1 st).heatmap =
        (GenerateHeatmap minimum maximum W H B l2 st).heatmap ∧
      (GenerateHeatmap minimum maximum W H B l1 st).maxHeatmapValue =
        (GenerateHeatmap minimum maximum W H B l2 st).maxHeatmapValue := by
  have hstate : GenerateHeatmap minimum maximum W H B l1 st =
      GenerateHeatmap minimum maximum W H B l2 st := by
    rw [GenerateHeatmap, GenerateHeatmap]
    exact foldl_perm _ (fun s a b => processSample_comm minimum maximum W H B s a b)
      hperm st
  exact ⟨by rw [hstate], by rw [hstate]⟩

/-- Witness for C7: swapping the two samples `(-2,-2)` and `(1,0)` on the
program's rectangle leaves the final heatmap and running maximum unchanged. -/
theorem C7_order_independence_witness :
    (GenerateHeatmap MINIMUM MAXIMUM IMAGE_WIDTH IMAGE_HEIGHT RED_ITERS
        [⟨-2, -2⟩, ⟨1, 0⟩] { heatmap := zeroHeatmap, maxHeatmapValue := 0 }).heatmap =
      (GenerateHeatmap MINIMUM MAXIMUM IMAGE_WIDTH IMAGE_HEIGHT RED_ITERS
        [⟨1, 0⟩, ⟨-2, -2⟩] { heatmap := zeroHeatmap, maxHeatmapValue := 0 }).heatmap ∧
      (GenerateHeatmap MINIMUM MAXIMUM IMAGE_WIDTH IMAGE_HEIGHT RED_ITERS
        [⟨-2, -2⟩, ⟨1, 0⟩] { heatmap := zeroHeatmap, maxHeatmapValue := 0 }).maxHeatmapValue =
      (GenerateHeatmap MINIMUM MAXIMUM IMAGE_WIDTH IMAGE_HEIGHT RED_ITERS
        [⟨1, 0⟩, ⟨-2, -2⟩] { heatmap := zeroHeatmap, maxHeatmapValue := 0 }).maxHeatmapValue :=
  C7_order_independence MINIMUM MAXIMUM IMAGE_WIDTH IMAGE_HEIGHT RED_ITERS
    [⟨-2, -2⟩, ⟨1, 0⟩] [⟨1, 0⟩, ⟨-2, -2⟩] { heatmap := zeroHeatmap, maxHeatmapValue := 0 }
    (List.Perm.swap (⟨1, 0⟩ : Complex) (⟨-2, -2⟩ : Complex) [])

/-- Claim C6 (confirmed): the shared running maximum starts at `0`, is at
every point during generation at least every cell value written so far (in
each channel pass, after any number of samples), never decreases across the
three sequential channel passes, and after the three passes equals the
maximum cell value over all cells of the three heatmaps. Stated under the
hypothesis that no trajectory point lies exactly on the rectangle maximum,
which excludes the out-of-grid writes of the filter's boundary bug (the
source's behaviour is undefined there). -/
theorem C6_global_max (sr sb sg : List Complex)
    (hr : inGridSamples RED_ITERS sr) (hb : inGridSamples BLUE_ITERS sb)
    (hg : inGridSamples GREEN_ITERS sg) :
    (∀ n x y, (redPrefix sr n).heatmap x y ≤ (redPrefix sr n).maxHeatmapValue) ∧
      (∀ n x y,
        (bluePrefix sr sb n).heatmap x y ≤ (bluePrefix sr sb n).maxHeatmapValue) ∧
      (∀ n x y,
        (greenPrefix sr sb sg n).heatmap x y ≤
          (greenPrefix sr sb sg n).maxHeatmapValue) ∧
      (redState sr).maxHeatmapValue ≤ (blueState sr sb).maxHeatmapValue ∧
      (blueState sr sb).maxHeatmapValue ≤ (greenState sr sb sg).maxHeatmapValue ∧
      (greenState sr sb sg).maxHeatmapValue =
        max (gridMax (redState sr).heatmap IMAGE_WIDTH IMAGE_HEIGHT)
          (max (gridMax (blueState sr sb).heatmap IMAGE_WIDTH IMAGE_HEIGHT)
            (gridMax (greenState sr sb sg).heatmap IMAGE_WIDTH IMAGE_HEIGHT)) := by
  have hzero : ∀ m : ℕ, ∀ x y : ℤ,
      (GenState.mk zeroHeatmap m).heatmap x y ≤ (GenState.mk zeroHeatmap m).maxHeatmapValue :=
    fun m x y => Nat.zero_le m
  have hgr : MINIMUM.r < MAXIMUM.r := by norm_num [MINIMUM, MAXIMUM]
  have hgi : MINIMUM.i < MAXIMUM.i := by norm_num [MINIMUM, MAXIMUM]
  have hgW : 0 < IMAGE_WIDTH := by norm_num [IMAGE_WIDTH]
  have hgH : 0 < IMAGE_HEIGHT := by norm_num [IMAGE_HEIGHT]
  have hm1 : (redState sr).maxHeatmapValue =
      gridMax (redState sr).heatmap IMAGE_WIDTH IMAGE_HEIGHT := by
    have := GenerateHeatmap_max_eq MINIMUM MAXIMUM IMAGE_WIDTH IMAGE_HEIGHT RED_ITERS
      hgr hgi hgW hgH sr hr 0
    rw [redState, this, max_eq_right (Nat.zero_le _)]
  have hm2 : (blueState sr sb).maxHeatmapValue =
      max (redState sr).maxHeatmapValue
        (gridMax (blueState sr sb).heatmap IMAGE_WIDTH IMAGE_HEIGHT) :=
    GenerateHeatmap_max_eq MINIMUM MAXIMUM IMAGE_WIDTH IMAGE_HEIGHT BLUE_ITERS
      hgr hgi hgW hgH sb hb (redState sr).maxHeatmapValue
  have hm3 : (greenState sr sb sg).maxHeatmapValue =
      max (blueState sr sb).maxHeatmapValue
        (gridMax (greenState sr sb sg).heatmap IMAGE_WIDTH IMAGE_HEIGHT) :=
    GenerateHeatmap_max_eq MINIMUM MAXIMUM IMAGE_WIDTH IMAGE_HEIGHT GREEN_ITERS
      hgr hgi hgW hgH sg hg (blueState sr sb).maxHeatmapValue
  refine ⟨?_, ?_, ?_, ?_, ?_, ?_⟩
  · intro n
    exact GenerateHeatmap_cell_le MINIMUM MAXIMUM IMAGE_WIDTH IMAGE_HEIGHT RED_ITERS
      (sr.take n) _ (hzero 0)
  · intro n
    exact GenerateHeatmap_cell_le MINIMUM MAXIMUM IMAGE_WIDTH IMAGE_HEIGHT BLUE_ITERS
      (sb.take n) _ (hzero _)
  · intro n
    exact GenerateHeatmap_cell_le MINIMUM MAXIMUM IMAGE_WIDTH IMAGE_HEIGHT GREEN_ITERS
      (sg.take n) _ (hzero _)
  · exact GenerateHeatmap_max_mono MINIMUM MAXIMUM IMAGE_WIDTH IMAGE_HEIGHT BLUE_ITERS
      sb { heatmap := zeroHeatmap, maxHeatmapValue := (redState sr).maxHeatmapValue }
  · exact GenerateHeatmap_max_mono MINIMUM MAXIMUM IMAGE_WIDTH IMAGE_HEIGHT GREEN_ITERS
      sg { heatmap := zeroHeatmap, maxHeatmapValue := (blueState sr sb).maxHeatmapValue }
  · rw [hm3, hm2, hm1, max_assoc]

/-- Witness for C6 with the red pass processing the single escaping sample
`(-2, -2)` and empty blue/green passes: the final shared maximum equals the
maximum cell value over the three heatmaps. -/
theorem C6_global_max_witness :
    (greenState [⟨-2, -2⟩] [] []).maxHeatmapValue =
      max (gridMax (redState [⟨-2, -2⟩]).heatmap IMAGE_WIDTH IMAGE_HEIGHT)
        (max (gridMax (blueState [⟨-2, -2⟩] []).heatmap IMAGE_WIDTH IMAGE_HEIGHT)
          (gridMax (greenState [⟨-2, -2⟩] [] []).heatmap IMAGE_WIDTH IMAGE_HEIGHT)) := by
  have hr : inGridSamples RED_ITERS [⟨-2, -2⟩] := by
    intro c hc
    rw [List.mem_singleton] at hc
    subst hc
    intro p hp
    rw [points_neg2 RED_ITERS (by norm_num [RED_ITERS])] at hp
    rw [List.mem_singleton] at hp
    subst hp
    intro _
    exact ⟨by norm_num [MAXIMUM], by norm_num [MAXIMUM]⟩
  have hb : inGridSamples BLUE_ITERS [] := by
    intro c hc
    exact absurd hc (List.not_mem_nil c)
  have hg : inGridSamples GREEN_ITERS [] := by
    intro c hc
    exact absurd hc (List.not_mem_nil c)
  exact (C6_global_max [⟨-2, -2⟩] [] [] hr hb hg).2.2.2.2.2

end Buddhabrot
